import Mathlib

/-!
Verification of the clusterman autoscaler core against its source.

Each section embeds one part of the Python source (clusterman) shallowly in
Lean: rational numbers stand for Python floats, `Except PyErr` models raised
exceptions, and lists model Python lists with their ordering.  Definitions are
translated from the source files under `clusterman/`; the few parts of the
repository whose source is not available (the pool-manager rebalancing code and
the resource-group base class) are modelled from the specification and marked
as such in their doc comments.
-/

namespace Clusterman

/-- Python exceptions that the embedded code can raise. -/
inductive PyErr
  | zeroDivision
  | signalConnection
  | keyError
  | signalError
  deriving DecidableEq, Repr

/-- Python division on floats: raises ZeroDivisionError when the denominator
is zero, otherwise divides exactly (modelled on rationals). -/
def pyDiv (a b : ℚ) : Except PyErr ℚ :=
  if b = 0 then .error .zeroDivision else .ok (a / b)

/-- Embeds the resource_request dict passed to
`Autoscaler._compute_target_capacity`: one optional quantity per resource name
in ('cpus', 'mem', 'disk'); `none` is Python `None` ("absent"). -/
structure ResourceRequest where
  cpus : Option ℚ
  mem : Option ℚ
  disk : Option ℚ
  deriving DecidableEq, Repr

/-- Embeds the fields of `AutoscalingConfig` used by
`_compute_target_capacity` (autoscaler/util.py). -/
structure AutoscalingConfig where
  setpoint : ℚ
  setpoint_margin : ℚ
  deriving DecidableEq, Repr

/-- Embeds the state of the `MesosPoolManager` read by
`_compute_target_capacity`: the current target capacity, the
non-orphan fulfilled capacity, and `get_resource_total` for each
of the three resources. -/
structure PoolState where
  target_capacity : ℚ
  non_orphan_fulfilled_capacity : ℚ
  cpus_total : ℚ
  mem_total : ℚ
  disk_total : ℚ
  deriving DecidableEq, Repr

/-- Embeds one iteration of the loop in
`_get_most_constrained_resource_for_request` (autoscaler.py lines 194-199):
an absent resource is skipped, a present one is divided by
`get_resource_total(resource)`. -/
def optionPct (requested : Option ℚ) (total : ℚ) : Except PyErr (List ℚ) :=
  match requested with
  | none => .ok []
  | some q =>
    match pyDiv q total with
    | .error e => .error e
    | .ok p => .ok [p]

/-- Embeds the loop of `_get_most_constrained_resource_for_request`, iterating
over ('cpus', 'mem', 'disk') in order and collecting the usage percentages of
the non-absent resources; the first zero division raises. -/
def requestedUsagePcts (st : PoolState) (req : ResourceRequest) :
    Except PyErr (List ℚ) :=
  match optionPct req.cpus st.cpus_total with
  | .error e => .error e
  | .ok l1 =>
    match optionPct req.mem st.mem_total with
    | .error e => .error e
    | .ok l2 =>
      match optionPct req.disk st.disk_total with
      | .error e => .error e
      | .ok l3 => .ok (l1 ++ l2 ++ l3)

/-- Embeds the final `max(requested_resource_usage_pcts.items(), key=...)` of
`_get_most_constrained_resource_for_request`, keeping only the maximal value;
Python `max` on an empty collection raises. -/
def maxUsagePct (l : List ℚ) : Except PyErr ℚ :=
  match l with
  | [] => .error .keyError
  | x :: xs => .ok (xs.foldl max x)

/-- Embeds `Autoscaler._compute_target_capacity` (autoscaler.py lines
125-183): the all-absent early return, the most-constrained usage percentage,
the scale factor `usage_pct / setpoint`, the new target
`non_orphan_fulfilled_capacity * scale_factor`, and the hysteresis test
`abs(new - current) / current >= setpoint_margin`. -/
def compute_target_capacity (cfg : AutoscalingConfig) (st : PoolState)
    (req : ResourceRequest) : Except PyErr ℚ :=
  let current := st.target_capacity
  if req.cpus = none ∧ req.mem = none ∧ req.disk = none then .ok current
  else
    match requestedUsagePcts st req with
    | .error e => .error e
    | .ok pcts =>
      match maxUsagePct pcts with
      | .error e => .error e
      | .ok usage_pct =>
        match pyDiv usage_pct cfg.setpoint with
        | .error e => .error e
        | .ok scale_factor =>
          let new_target := st.non_orphan_fulfilled_capacity * scale_factor
          match pyDiv |new_target - current| current with
          | .error e => .error e
          | .ok setpoint_distance =>
            .ok (if setpoint_distance ≥ cfg.setpoint_margin then new_target
                 else current)

/-- Statement-side rendering of "request[r] / pool_total(r) for each non-absent
resource r", in the fixed order cpus, mem, disk, with total division. -/
def nonAbsentPcts (st : PoolState) (req : ResourceRequest) : List ℚ :=
  (req.cpus.map (· / st.cpus_total)).toList ++
    (req.mem.map (· / st.mem_total)).toList ++
    (req.disk.map (· / st.disk_total)).toList

theorem le_foldl_max_self (xs : List ℚ) : ∀ x : ℚ, x ≤ xs.foldl max x := by
  induction xs with
  | nil => intro x; simp
  | cons y ys ih =>
    intro x
    rw [List.foldl_cons]
    exact le_trans (le_max_left x y) (ih (max x y))

theorem foldl_max_mem (xs : List ℚ) : ∀ x : ℚ, xs.foldl max x ∈ x :: xs := by
  induction xs with
  | nil => intro x; simp
  | cons y ys ih =>
    intro x
    rw [List.foldl_cons]
    rcases List.mem_cons.mp (ih (max x y)) with h1 | h1
    · rcases max_choice x y with hc | hc <;> rw [h1, hc] <;> simp
    · exact List.mem_cons_of_mem _ (List.mem_cons_of_mem _ h1)

theorem le_foldl_max (xs : List ℚ) :
    ∀ x : ℚ, ∀ v ∈ x :: xs, v ≤ xs.foldl max x := by
  induction xs with
  | nil =>
    intro x v hv
    rw [List.mem_singleton] at hv
    simp [hv]
  | cons y ys ih =>
    intro x v hv
    rw [List.foldl_cons]
    rcases List.mem_cons.mp hv with h | h
    · subst h
      exact le_trans (le_max_left v y) (le_foldl_max_self ys (max v y))
    · rcases List.mem_cons.mp h with h1 | h1
      · subst h1
        exact le_trans (le_max_right x v) (le_foldl_max_self ys (max x v))
      · exact ih (max x y) v (List.mem_cons_of_mem _ h1)

theorem requestedUsagePcts_ok (st : PoolState) (req : ResourceRequest)
    (hc : ∀ q, req.cpus = some q → st.cpus_total ≠ 0)
    (hm : ∀ q, req.mem = some q → st.mem_total ≠ 0)
    (hd : ∀ q, req.disk = some q → st.disk_total ≠ 0) :
    requestedUsagePcts st req = .ok (nonAbsentPcts st req) := by
  rcases req with ⟨c, m, d⟩
  cases c <;> cases m <;> cases d <;>
    simp_all [requestedUsagePcts, optionPct, pyDiv, nonAbsentPcts]

theorem nonAbsentPcts_ne_nil (st : PoolState) (req : ResourceRequest)
    (hne : ¬(req.cpus = none ∧ req.mem = none ∧ req.disk = none)) :
    nonAbsentPcts st req ≠ [] := by
  rcases req with ⟨c, m, d⟩
  cases c <;> cases m <;> cases d <;> simp_all [nonAbsentPcts]

/-- C1: with at least one non-absent resource, `_compute_target_capacity`
returns `non_orphan_fulfilled_capacity * (max usage pct) / setpoint` unless
the relative distance of that value from the current target capacity is
strictly below `setpoint_margin`, in which case (and in the all-absent case)
it returns the current target capacity. -/
theorem compute_target_capacity_spec (cfg : AutoscalingConfig) (st : PoolState)
    (req : ResourceRequest)
    (hcur : st.target_capacity ≠ 0)
    (hsp : cfg.setpoint ≠ 0)
    (hc : ∀ q, req.cpus = some q → st.cpus_total ≠ 0)
    (hm : ∀ q, req.mem = some q → st.mem_total ≠ 0)
    (hd : ∀ q, req.disk = some q → st.disk_total ≠ 0) :
    (req.cpus = none ∧ req.mem = none ∧ req.disk = none →
      compute_target_capacity cfg st req = .ok st.target_capacity) ∧
    (¬(req.cpus = none ∧ req.mem = none ∧ req.disk = none) →
      ∃ u ∈ nonAbsentPcts st req,
        (∀ v ∈ nonAbsentPcts st req, v ≤ u) ∧
        compute_target_capacity cfg st req = .ok
          (if |st.non_orphan_fulfilled_capacity * u / cfg.setpoint -
                st.target_capacity| / st.target_capacity < cfg.setpoint_margin
           then st.target_capacity
           else st.non_orphan_fulfilled_capacity * u / cfg.setpoint)) := by
  constructor
  · intro h
    simp [compute_target_capacity, h.1, h.2.1, h.2.2]
  · intro hne
    have hpcts := requestedUsagePcts_ok st req hc hm hd
    rcases hl : nonAbsentPcts st req with _ | ⟨x, xs⟩
    · exact absurd hl (nonAbsentPcts_ne_nil st req hne)
    · refine ⟨xs.foldl max x, hl ▸ foldl_max_mem xs x,
        fun v hv => le_foldl_max xs x v (hl ▸ hv), ?_⟩
      rw [compute_target_capacity]
      rw [if_neg hne, hpcts, hl]
      simp only [maxUsagePct, pyDiv, if_neg hsp, if_neg hcur]
      rw [mul_div_assoc]
      congr 1
      rcases lt_or_le
        (|st.non_orphan_fulfilled_capacity *
            (List.foldl max x xs / cfg.setpoint) - st.target_capacity| /
          st.target_capacity) cfg.setpoint_margin with h | h
      · rw [if_neg (not_le.mpr h), if_pos h]
      · rw [if_pos h, if_neg (not_lt.mpr h)]

theorem requestedUsagePcts_zero (st : PoolState) (req : ResourceRequest)
    (h : ((∃ q, req.cpus = some q) ∧ st.cpus_total = 0) ∨
      ((∃ q, req.mem = some q) ∧ st.mem_total = 0) ∨
      ((∃ q, req.disk = some q) ∧ st.disk_total = 0)) :
    requestedUsagePcts st req = .error .zeroDivision := by
  rcases req with ⟨c, m, d⟩
  cases c <;> cases m <;> cases d <;>
    simp_all only [requestedUsagePcts, optionPct, pyDiv, Option.some.injEq,
      exists_eq, true_and, false_and, exists_false, false_or, or_false] <;>
    (try split_ifs) <;> simp_all

theorem requestedUsagePcts_shape (st : PoolState) (req : ResourceRequest)
    (hne : ¬(req.cpus = none ∧ req.mem = none ∧ req.disk = none)) :
    requestedUsagePcts st req = .error .zeroDivision ∨
      ∃ x xs, requestedUsagePcts st req = .ok (x :: xs) := by
  rcases req with ⟨c, m, d⟩
  cases c <;> cases m <;> cases d <;>
    simp_all only [requestedUsagePcts, optionPct, pyDiv, not_and,
      not_true_eq_false, not_false_eq_true] <;>
    (try split_ifs) <;> simp_all

/-- C10: with at least one non-absent resource, `_compute_target_capacity`
raises ZeroDivisionError (rather than returning a value) whenever the current
target capacity is 0 or the pool total of any requested resource is 0. -/
theorem compute_target_capacity_zero_div (cfg : AutoscalingConfig)
    (st : PoolState) (req : ResourceRequest)
    (hne : ¬(req.cpus = none ∧ req.mem = none ∧ req.disk = none))
    (h0 : st.target_capacity = 0 ∨
      ((∃ q, req.cpus = some q) ∧ st.cpus_total = 0) ∨
      ((∃ q, req.mem = some q) ∧ st.mem_total = 0) ∨
      ((∃ q, req.disk = some q) ∧ st.disk_total = 0)) :
    compute_target_capacity cfg st req = .error .zeroDivision := by
  rcases h0 with hcur | hz
  · rcases requestedUsagePcts_shape st req hne with herr | ⟨x, xs, hok⟩
    · rw [compute_target_capacity, if_neg hne, herr]
    · rw [compute_target_capacity, if_neg hne, hok]
      simp only [maxUsagePct, pyDiv]
      split_ifs <;> simp_all
  · rw [compute_target_capacity, if_neg hne, requestedUsagePcts_zero st req hz]

/-- Witness for C1: a concrete pool at target 100 with 100 of each resource,
setpoint 1/2, margin 1/10, and a request for 60 cpus. -/
theorem compute_target_capacity_spec_witness :
    ∃ u ∈ nonAbsentPcts ⟨100, 100, 100, 100, 100⟩ ⟨some 60, none, none⟩,
      (∀ v ∈ nonAbsentPcts ⟨100, 100, 100, 100, 100⟩ ⟨some 60, none, none⟩,
        v ≤ u) ∧
      compute_target_capacity ⟨1/2, 1/10⟩ ⟨100, 100, 100, 100, 100⟩
          ⟨some 60, none, none⟩ =
        .ok (if |(100 : ℚ) * u / (1/2) - 100| / 100 < 1/10 then 100
             else (100 : ℚ) * u / (1/2)) :=
  (compute_target_capacity_spec ⟨1/2, 1/10⟩ ⟨100, 100, 100, 100, 100⟩
      ⟨some 60, none, none⟩ (by norm_num) (by norm_num)
      (fun q _ => by norm_num) (fun q h => by simp at h)
      (fun q h => by simp at h)).2 (by simp)

/-- Witness for C10: the same request against a pool whose current target
capacity is 0 raises ZeroDivisionError. -/
theorem compute_target_capacity_zero_div_witness :
    compute_target_capacity ⟨1/2, 1/10⟩ ⟨0, 100, 100, 100, 100⟩
      ⟨some 60, none, none⟩ = .error .zeroDivision :=
  compute_target_capacity_zero_div ⟨1/2, 1/10⟩ ⟨0, 100, 100, 100, 100⟩
    ⟨some 60, none, none⟩ (by simp) (Or.inl rfl)

/-- Modelled from the spec: the equal-split of a remaining budget `B` over `n`
groups once no group is beyond the equal share (spec 4.2.1): every group
receives the floor share `B / n`, except that `B % n` of them receive one
extra unit; the extra units go to the positions latest in processing order. -/
def splitShares (B n : ℕ) : List ℕ :=
  List.replicate (n - B % n) (B / n) ++ List.replicate (B % n) (B / n + 1)

/-- Modelled from the spec: the scale-up pass of the rebalancing algorithm of
spec 4.2.1 (the pool manager source, mesos_pool_manager.py, is not under the
provided sources; only its tests and callers are).  The current targets are
processed largest-first; a group whose target exceeds the equal share
`B / remaining` is pinned at its current target and subtracted from the
budget, and once no remaining group exceeds the share the budget is split
into floor and ceiling shares. -/
def equalizeUp : ℕ → List ℕ → List ℕ
  | _, [] => []
  | B, t :: rest =>
    if B < t * (rest.length + 1) then t :: equalizeUp (B - t) rest
    else splitShares B (rest.length + 1)

/-- Modelled from the spec: the scale-down pass of the rebalancing algorithm
of spec 4.2.1, symmetric to `equalizeUp`: targets are processed
smallest-first and a group whose target is below the equal share is pinned. -/
def equalizeDown : ℕ → List ℕ → List ℕ
  | _, [] => []
  | B, t :: rest =>
    if t * (rest.length + 1) < B then t :: equalizeDown (B - t) rest
    else splitShares B (rest.length + 1)

/-- Modelled from the spec: `_compute_new_resource_group_targets` on the
non-stale groups, taking the constrained pool target `T` and the current
targets in processing order (descending for a scale-up, ascending for a
scale-down); a target equal to the current total returns the targets
unchanged, as the pool-manager tests require. -/
def compute_new_resource_group_targets (T : ℕ) (ts : List ℕ) : List ℕ :=
  if ts.sum = T then ts
  else if ts.sum < T then equalizeUp T ts
  else equalizeDown T ts

theorem splitShares_length (B n : ℕ) (hn : 0 < n) :
    (splitShares B n).length = n := by
  have h := Nat.mod_lt B hn
  simp [splitShares]
  omega

theorem splitShares_sum (B n : ℕ) (hn : 0 < n) : (splitShares B n).sum = B := by
  have hmod := Nat.mod_lt B hn
  have hdiv := Nat.div_add_mod B n
  simp only [splitShares, List.sum_append, List.sum_replicate, smul_eq_mul]
  have hle : (B % n) * (B / n) ≤ n * (B / n) :=
    Nat.mul_le_mul_right _ (le_of_lt hmod)
  have hsub : (n - B % n) * (B / n) = n * (B / n) - (B % n) * (B / n) :=
    Nat.sub_mul n (B % n) (B / n)
  rw [hsub, Nat.mul_add]
  omega

theorem splitShares_mem_le (B n v : ℕ) (hv : v ∈ splitShares B n) :
    v ≤ B / n + 1 := by
  rcases List.mem_append.mp hv with h | h <;>
    rcases List.eq_of_mem_replicate h with rfl <;> omega

theorem splitShares_mem_ge (B n v : ℕ) (hv : v ∈ splitShares B n) :
    B / n ≤ v := by
  rcases List.mem_append.mp hv with h | h <;>
    rcases List.eq_of_mem_replicate h with rfl <;> omega

theorem splitShares_mem_le_of_ceil (B n t v : ℕ) (hn : 0 < n)
    (hB : B ≤ t * n) (hv : v ∈ splitShares B n) : v ≤ t := by
  have hqr : n * (B / n) + B % n = B := Nat.div_add_mod B n
  have hq : B / n ≤ t := by
    by_contra hlt
    push_neg at hlt
    have h1 : (t + 1) * n ≤ (B / n) * n :=
      Nat.mul_le_mul_right n (Nat.succ_le_of_lt hlt)
    rw [add_one_mul, Nat.mul_comm (B / n) n] at h1
    omega
  rcases List.mem_append.mp hv with h | h
  · rcases List.eq_of_mem_replicate h with rfl
    exact hq
  · rcases List.eq_of_mem_replicate h with rfl
    have hr : 0 < B % n := by
      rcases Nat.eq_zero_or_pos (B % n) with h0 | h0
      · rw [h0] at h; simp at h
      · exact h0
    by_contra hgt
    push_neg at hgt
    have ht : t ≤ B / n := by omega
    have h1 : t * n ≤ (B / n) * n := Nat.mul_le_mul_right n ht
    rw [Nat.mul_comm (B / n) n] at h1
    omega

theorem forall₂_le_of_bounds {xs ys : List ℕ} (c : ℕ)
    (hx : ∀ a ∈ xs, a ≤ c) (hy : ∀ b ∈ ys, c ≤ b)
    (hl : xs.length = ys.length) : List.Forall₂ (· ≤ ·) xs ys := by
  induction xs generalizing ys with
  | nil =>
    cases ys with
    | nil => exact .nil
    | cons b ys => simp at hl
  | cons a xs ih =>
    cases ys with
    | nil => simp at hl
    | cons b ys =>
      refine .cons (le_trans (hx a (List.mem_cons_self a xs))
        (hy b (List.mem_cons_self b ys))) (ih ?_ ?_ ?_)
      · exact fun a ha => hx a (List.mem_cons_of_mem _ ha)
      · exact fun b hb => hy b (List.mem_cons_of_mem _ hb)
      · simpa using hl

theorem forall₂_ge_of_bounds {xs ys : List ℕ} (c : ℕ)
    (hx : ∀ a ∈ xs, c ≤ a) (hy : ∀ b ∈ ys, b ≤ c)
    (hl : xs.length = ys.length) :
    List.Forall₂ (fun a b => b ≤ a) xs ys := by
  induction xs generalizing ys with
  | nil =>
    cases ys with
    | nil => exact .nil
    | cons b ys => simp at hl
  | cons a xs ih =>
    cases ys with
    | nil => simp at hl
    | cons b ys =>
      refine .cons (le_trans (hy b (List.mem_cons_self b ys))
        (hx a (List.mem_cons_self a xs))) (ih ?_ ?_ ?_)
      · exact fun a ha => hx a (List.mem_cons_of_mem _ ha)
      · exact fun b hb => hy b (List.mem_cons_of_mem _ hb)
      · simpa using hl

theorem equalizeUp_sum (ts : List ℕ) :
    ∀ B : ℕ, ts ≠ [] → ts.sum ≤ B → (equalizeUp B ts).sum = B := by
  induction ts with
  | nil => intro B h _; exact absurd rfl h
  | cons t rest ih =>
    intro B _ hsum
    rw [List.sum_cons] at hsum
    rw [equalizeUp]
    split_ifs with hpin
    · have hrne : rest ≠ [] := by
        intro h0
        rw [h0] at hpin hsum
        simp at hpin hsum
        omega
      rw [List.sum_cons, ih (B - t) hrne (by omega)]
      omega
    · exact splitShares_sum B (rest.length + 1) (Nat.succ_pos _)

theorem equalizeUp_mono (ts : List ℕ) :
    ∀ B : ℕ, ts.Sorted (fun a b => b ≤ a) → ts.sum ≤ B →
      List.Forall₂ (· ≤ ·) ts (equalizeUp B ts) := by
  induction ts with
  | nil => intro B _ _; exact .nil
  | cons t rest ih =>
    intro B hsorted hsum
    rw [List.sorted_cons] at hsorted
    rw [List.sum_cons] at hsum
    rw [equalizeUp]
    split_ifs with hpin
    · exact .cons (le_refl t) (ih (B - t) hsorted.2 (by omega))
    · push_neg at hpin
      have hn : 0 < rest.length + 1 := Nat.succ_pos _
      have ht : t ≤ B / (rest.length + 1) :=
        (Nat.le_div_iff_mul_le hn).mpr hpin
      refine forall₂_le_of_bounds (B / (rest.length + 1)) ?_
        (splitShares_mem_ge B (rest.length + 1)) ?_
      · intro a ha
        rcases List.mem_cons.mp ha with rfl | ha
        · exact ht
        · exact le_trans (hsorted.1 a ha) ht
      · rw [splitShares_length B (rest.length + 1) hn]
        simp

theorem equalizeDown_sum (ts : List ℕ) :
    ∀ B : ℕ, ts ≠ [] → B ≤ ts.sum → (equalizeDown B ts).sum = B := by
  induction ts with
  | nil => intro B h _; exact absurd rfl h
  | cons t rest ih =>
    intro B _ hsum
    rw [List.sum_cons] at hsum
    rw [equalizeDown]
    split_ifs with hpin
    · have htB : t < B := by
        have : t * 1 ≤ t * (rest.length + 1) :=
          Nat.mul_le_mul_left t (by omega)
        omega
      have hrne : rest ≠ [] := by
        intro h0
        rw [h0] at hsum
        simp at hsum
        omega
      rw [List.sum_cons, ih (B - t) hrne (by omega)]
      omega
    · exact splitShares_sum B (rest.length + 1) (Nat.succ_pos _)

theorem equalizeDown_mono (ts : List ℕ) :
    ∀ B : ℕ, ts.Sorted (· ≤ ·) → B ≤ ts.sum →
      List.Forall₂ (fun a b => b ≤ a) ts (equalizeDown B ts) := by
  induction ts with
  | nil => intro B _ _; exact .nil
  | cons t rest ih =>
    intro B hsorted hsum
    rw [List.sorted_cons] at hsorted
    rw [List.sum_cons] at hsum
    rw [equalizeDown]
    split_ifs with hpin
    · exact .cons (le_refl t) (ih (B - t) hsorted.2 (by omega))
    · push_neg at hpin
      have hn : 0 < rest.length + 1 := Nat.succ_pos _
      refine forall₂_ge_of_bounds t ?_ ?_ ?_
      · intro a ha
        rcases List.mem_cons.mp ha with rfl | ha
        · exact le_refl a
        · exact hsorted.1 a ha
      · exact fun v hv =>
          splitShares_mem_le_of_ceil B (rest.length + 1) t v hn hpin hv
      · rw [splitShares_length B (rest.length + 1) hn]
        simp

/-- C2: the rebalancing step on the non-stale groups (targets given in
processing order) distributes exactly the constrained pool target T, and is
monotone: on a scale-up (T at least the current total) no group is lowered,
on a scale-down (T at most the current total) no group is raised. -/
theorem compute_new_resource_group_targets_spec (T : ℕ) (ts : List ℕ)
    (hne : ts ≠ []) :
    (ts.Sorted (fun a b => b ≤ a) → ts.sum ≤ T →
      (compute_new_resource_group_targets T ts).sum = T ∧
      List.Forall₂ (· ≤ ·) ts (compute_new_resource_group_targets T ts)) ∧
    (ts.Sorted (· ≤ ·) → T ≤ ts.sum →
      (compute_new_resource_group_targets T ts).sum = T ∧
      List.Forall₂ (fun a b => b ≤ a) ts
        (compute_new_resource_group_targets T ts)) := by
  rw [compute_new_resource_group_targets]
  split_ifs with heq hlt
  · constructor
    · intro _ _
      exact ⟨heq, List.forall₂_same.mpr fun a _ => le_refl a⟩
    · intro _ _
      exact ⟨heq, List.forall₂_same.mpr fun a _ => le_refl a⟩
  · constructor
    · intro hsorted _
      exact ⟨equalizeUp_sum ts T hne (le_of_lt hlt),
        equalizeUp_mono ts T hsorted (le_of_lt hlt)⟩
    · intro _ hT
      omega
  · constructor
    · intro _ hT
      omega
    · intro hsorted _
      have hge : T ≤ ts.sum := by omega
      exact ⟨equalizeDown_sum ts T hne hge,
        equalizeDown_mono ts T hsorted hge⟩

/-- Witness for C2: the balanced scale-up scenario of the integration test,
five groups at target 1 rebalanced to a pool target of 53. -/
theorem compute_new_resource_group_targets_spec_witness :
    (compute_new_resource_group_targets 53 [1, 1, 1, 1, 1]).sum = 53 ∧
    List.Forall₂ (· ≤ ·) [1, 1, 1, 1, 1]
      (compute_new_resource_group_targets 53 [1, 1, 1, 1, 1]) :=
  (compute_new_resource_group_targets_spec 53 [1, 1, 1, 1, 1]
    (by simp)).1 (by decide) (by decide)

/-- Observable effects of one `Autoscaler.run` tick: the capacities passed to
`mesos_pool_manager.modify_target_capacity`, and the exception (if any) that
propagates out of `run`. -/
structure RunOutcome where
  modifyCalls : List ℚ
  raised : Option PyErr
  deriving DecidableEq, Repr

/-- Embeds `Autoscaler.run` (autoscaler.py lines 64-91): the configured
signal is evaluated; if that raises, the default signal is evaluated instead
and the caught exception is remembered; the resulting resource request is fed
to `_compute_target_capacity` and the new target is applied through
`modify_target_capacity`; a remembered exception is re-raised at the very end,
after the capacity modification.  An exception of the default signal itself,
or of the capacity computation, propagates without any modification call. -/
def autoscaler_run (cfg : AutoscalingConfig) (st : PoolState)
    (signalResult defaultResult : Except PyErr ResourceRequest) : RunOutcome :=
  match signalResult with
  | .ok req =>
    match compute_target_capacity cfg st req with
    | .error e2 => { modifyCalls := [], raised := some e2 }
    | .ok c => { modifyCalls := [c], raised := none }
  | .error e =>
    match defaultResult with
    | .error e2 => { modifyCalls := [], raised := some e2 }
    | .ok req =>
      match compute_target_capacity cfg st req with
      | .error e2 => { modifyCalls := [], raised := some e2 }
      | .ok c => { modifyCalls := [c], raised := some e }

/-- C3: when the configured non-default signal raises, `run` computes and
applies the capacity obtained from the default signal's result, so the
non-default failure does not abort the capacity modification; when the
default signal itself raises, its error propagates out of `run` and no
capacity is applied. -/
theorem autoscaler_run_fallback (cfg : AutoscalingConfig) (st : PoolState)
    (e : PyErr) :
    (∀ req c, compute_target_capacity cfg st req = .ok c →
      autoscaler_run cfg st (.error e) (.ok req) =
        { modifyCalls := [c], raised := some e }) ∧
    (∀ e2, autoscaler_run cfg st (.error e) (.error e2) =
      { modifyCalls := [], raised := some e2 }) := by
  constructor
  · intro req c h
    simp [autoscaler_run, h]
  · intro e2
    rfl

/-- Witness for C3: a failing client signal falls back to a default-signal
request of 60 cpus against the concrete pool of the C1 witness, and the
capacity 120 it implies is applied. -/
theorem autoscaler_run_fallback_witness :
    autoscaler_run ⟨1/2, 1/10⟩ ⟨100, 100, 100, 100, 100⟩
        (.error .signalError) (.ok ⟨some 60, none, none⟩) =
      { modifyCalls := [120], raised := some .signalError } ∧
    autoscaler_run ⟨1/2, 1/10⟩ ⟨100, 100, 100, 100, 100⟩
        (.error .signalError) (.error .signalConnection) =
      { modifyCalls := [], raised := some .signalConnection } :=
  ⟨(autoscaler_run_fallback ⟨1/2, 1/10⟩ ⟨100, 100, 100, 100, 100⟩
      .signalError).1 ⟨some 60, none, none⟩ 120
    (by simp [compute_target_capacity, requestedUsagePcts, optionPct,
      pyDiv, maxUsagePct]; norm_num),
   (autoscaler_run_fallback ⟨1/2, 1/10⟩ ⟨100, 100, 100, 100, 100⟩
      .signalError).2 .signalConnection⟩

/-- Fixed-size chunking with chunk size `k + 1`: embeds Python loops of the
shape `for i in range(0, len(xs), size): use(xs[i:i+size])`. -/
def chunksBy (k : ℕ) : List α → List (List α)
  | [] => []
  | x :: xs => (x :: xs.take k) :: chunksBy k (xs.drop k)
termination_by l => l.length
decreasing_by simp [List.length_drop]; omega

theorem chunksBy_join (k : ℕ) (l : List α) : (chunksBy k l).flatten = l := by
  have main : ∀ n : ℕ, ∀ l : List α, l.length ≤ n →
      (chunksBy k l).flatten = l := by
    intro n
    induction n with
    | zero =>
      intro l hl
      cases l with
      | nil => simp [chunksBy]
      | cons x xs => simp at hl
    | succ n ih =>
      intro l hl
      cases l with
      | nil => simp [chunksBy]
      | cons x xs =>
        rw [chunksBy, List.flatten_cons,
          ih (xs.drop k) (by simp at hl; simp [List.length_drop]; omega)]
        simp [List.take_append_drop]
  exact main l.length l (le_refl _)

theorem chunksBy_mem_length (k : ℕ) (l : List α) (c : List α)
    (hc : c ∈ chunksBy k l) : c.length ≤ k + 1 := by
  have main : ∀ n : ℕ, ∀ l : List α, l.length ≤ n →
      ∀ c ∈ chunksBy k l, c.length ≤ k + 1 := by
    intro n
    induction n with
    | zero =>
      intro l hl c hc
      cases l with
      | nil => simp [chunksBy] at hc
      | cons x xs => simp at hl
    | succ n ih =>
      intro l hl c hc
      cases l with
      | nil => simp [chunksBy] at hc
      | cons x xs =>
        rw [chunksBy] at hc
        rcases List.mem_cons.mp hc with rfl | hc
        · simp only [List.length_cons, List.length_take]
          omega
        · exact ih (xs.drop k)
            (by simp at hl; simp [List.length_drop]; omega) c hc
  exact main l.length l (le_refl _) c hc

/-- Embeds `struct.pack('>I', n)` (util.py line 227): the four big-endian
bytes of the payload length. -/
def pack32 (n : ℕ) : List ℕ :=
  [n / 2 ^ 24 % 256, n / 2 ^ 16 % 256, n / 2 ^ 8 % 256, n % 256]

/-- Value denoted by a four-byte big-endian prefix. -/
def unpack32 (a b c d : ℕ) : ℕ := ((a * 256 + b) * 256 + c) * 256 + d

theorem unpack32_pack32 (n : ℕ) (h : n < 2 ^ 32) :
    unpack32 (n / 2 ^ 24 % 256) (n / 2 ^ 16 % 256) (n / 2 ^ 8 % 256)
      (n % 256) = n := by
  simp only [unpack32]
  omega

/-- Embeds the sending half of `evaluate_signal` (util.py lines 226-235):
the 4-byte big-endian length prefix is sent first, then the body in
SOCK_MESG_SIZE = 4096 byte chunks; on the wire the receiver sees their
concatenation. -/
def sentMetricsBytes (payload : List ℕ) : List ℕ :=
  pack32 payload.length ++ (chunksBy 4095 payload).flatten

/-- Modelled from the spec: the signal worker's reading side (the worker
lives in the clusterman_signals repository, which is not part of these
sources): it reads the 4-byte big-endian length and then that many bytes of
body (spec 4.3, query protocol wire format). -/
def serverReadFrame (stream : List ℕ) : Option (List ℕ) :=
  match stream with
  | a :: b :: c :: d :: rest =>
    if rest.length < unpack32 a b c d then none
    else some (rest.take (unpack32 a b c d))
  | _ => none

/-- Embeds the response-reading tail of `evaluate_signal` (util.py lines
236-245): the first byte of the first recv must be the ACK 0x01; if that
recv carried more than the single ACK byte the remainder is the response,
otherwise a second recv supplies it. -/
def readSignalResponse (recv1 recv2 : List ℕ) : Except PyErr (List ℕ) :=
  if recv1.take 1 ≠ [1] then .error .signalConnection
  else .ok (if recv1.drop 1 = [] then recv2 else recv1.drop 1)

/-- C4: a payload of at most 10 MB framed by `evaluate_signal` (big-endian
4-byte length, body in 4096-byte chunks) is reconstructed byte-exactly by
the frame reader; and the client response reader recovers the response body
byte-exactly both when the ACK arrives coalesced with the body in one read
and when the ACK arrives alone and the reader reads again. -/
theorem signal_protocol_roundtrip (payload : List ℕ)
    (hlen : payload.length ≤ 10 * 1024 * 1024) :
    serverReadFrame (sentMetricsBytes payload) = some payload ∧
    (∀ body junk : List ℕ, body ≠ [] →
      readSignalResponse (1 :: body) junk = .ok body) ∧
    (∀ body : List ℕ, readSignalResponse [1] body = .ok body) := by
  refine ⟨?_, ?_, ?_⟩
  · rw [sentMetricsBytes, chunksBy_join]
    simp only [pack32, List.cons_append, List.nil_append, serverReadFrame]
    rw [unpack32_pack32 payload.length (by omega)]
    simp [List.take_length]
  · intro body junk hbody
    simp [readSignalResponse, hbody]
  · intro body
    rfl

/-- Witness for C4: the three-byte payload [7, 8, 9] round-trips, and the
response readers recover a concrete body in both delivery shapes. -/
theorem signal_protocol_roundtrip_witness :
    serverReadFrame (sentMetricsBytes [7, 8, 9]) = some [7, 8, 9] ∧
    (∀ body junk : List ℕ, body ≠ [] →
      readSignalResponse (1 :: body) junk = .ok body) ∧
    (∀ body : List ℕ, readSignalResponse [1] body = .ok body) :=
  signal_protocol_roundtrip [7, 8, 9] (by norm_num)

/-- Python `int()` truncation toward zero on a float, modelled on ℚ. -/
def pyInt (q : ℚ) : ℤ := q.num / (q.den : ℤ)

/-- Backend state read by `AutoScalingResourceGroup.modify_target_capacity`:
the group description's MinSize, MaxSize and DesiredCapacity, and the member
instance ids (whose count is the group's fulfilled_capacity). -/
structure AsgState where
  minSize : ℚ
  maxSize : ℚ
  desiredCapacity : ℚ
  instanceIds : List String
  deriving DecidableEq, Repr

/-- Provider calls issued by one `modify_target_capacity` invocation: the
number of clamp warnings logged, the id batches whose scale-in protection was
removed, and the DesiredCapacity values passed to `set_desired_capacity`. -/
structure AsgEffects where
  clampLogs : ℕ
  unprotectCalls : List (List String)
  setDesiredCalls : List ℤ
  deriving DecidableEq, Repr

/-- Embeds `AutoScalingResourceGroup.modify_target_capacity`
(auto_scaling_resource_group.py lines 103-163): the requested capacity is
clamped to MaxSize / MinSize with a warning log on either clamp; on a dry
run the function returns before any provider call; otherwise, on a scale
down with terminate_excess_capacity, scale-in protection is removed from the
first int(target_diff) instances, and `set_desired_capacity` is called with
the clamped capacity truncated to an int. -/
def asg_modify_target_capacity (st : AsgState) (target_capacity : ℚ)
    (terminate_excess_capacity dry_run : Bool) : AsgState × AsgEffects :=
  let clamped :=
    if target_capacity > st.maxSize then st.maxSize
    else if target_capacity < st.minSize then st.minSize
    else target_capacity
  let clampLogs : ℕ :=
    if target_capacity > st.maxSize then 1
    else if target_capacity < st.minSize then 1
    else 0
  if dry_run then
    (st, { clampLogs := clampLogs, unprotectCalls := [], setDesiredCalls := [] })
  else
    let target_diff := st.desiredCapacity - clamped
    let unprotect :=
      if target_diff > 0 ∧ terminate_excess_capacity then
        [st.instanceIds.take (pyInt target_diff).toNat]
      else []
    ({ st with desiredCapacity := ((pyInt clamped : ℤ) : ℚ) },
     { clampLogs := clampLogs, unprotectCalls := unprotect,
       setDesiredCalls := [pyInt clamped] })

/-- C5: a dry run of the ASG `modify_target_capacity` changes neither the
group state (so neither target nor fulfilled capacity) and issues no
provider call; a real run calls `set_desired_capacity` with a value clamped
into [MinSize, MaxSize], leaves an in-bounds request unclamped, and logs a
clamp warning exactly when the request is out of bounds. -/
theorem asg_modify_target_capacity_spec (st : AsgState) (target : ℚ)
    (te : Bool) (hmm : st.minSize ≤ st.maxSize) :
    ((asg_modify_target_capacity st target te true).1 = st ∧
      (asg_modify_target_capacity st target te true).2.unprotectCalls = [] ∧
      (asg_modify_target_capacity st target te true).2.setDesiredCalls = []) ∧
    (∃ applied : ℚ,
      (asg_modify_target_capacity st target te false).2.setDesiredCalls =
        [pyInt applied] ∧
      st.minSize ≤ applied ∧ applied ≤ st.maxSize ∧
      (st.minSize ≤ target ∧ target ≤ st.maxSize → applied = target) ∧
      (asg_modify_target_capacity st target te false).2.clampLogs =
        (if st.minSize ≤ target ∧ target ≤ st.maxSize then 0 else 1)) := by
  constructor
  · exact ⟨rfl, rfl, rfl⟩
  · by_cases h1 : target > st.maxSize
    · have hnc : ¬(st.minSize ≤ target ∧ target ≤ st.maxSize) :=
        fun h => absurd h1 (not_lt.mpr h.2)
      refine ⟨st.maxSize, ?_, hmm, le_refl _, fun h => absurd h hnc, ?_⟩
      · simp [asg_modify_target_capacity, h1]
      · simp [asg_modify_target_capacity, h1, hnc]
    · by_cases h2 : target < st.minSize
      · have hnc : ¬(st.minSize ≤ target ∧ target ≤ st.maxSize) :=
          fun h => absurd h2 (not_lt.mpr h.1)
        refine ⟨st.minSize, ?_, le_refl _, hmm, fun h => absurd h hnc, ?_⟩
        · simp [asg_modify_target_capacity, h1, h2]
        · simp [asg_modify_target_capacity, h1, h2, hnc]
      · have hc : st.minSize ≤ target ∧ target ≤ st.maxSize :=
          ⟨not_lt.mp h2, not_lt.mp h1⟩
        refine ⟨target, ?_, hc.1, hc.2, fun _ => rfl, ?_⟩
        · simp [asg_modify_target_capacity, h1, h2]
        · simp [asg_modify_target_capacity, h1, h2, hc]

/-- Witness for C5: a concrete ASG with bounds [2, 10] at desired capacity 5
and two member instances. -/
theorem asg_modify_target_capacity_spec_witness :
    ((asg_modify_target_capacity ⟨2, 10, 5, ["i-1", "i-2"]⟩ 50 true true).1 =
        ⟨2, 10, 5, ["i-1", "i-2"]⟩ ∧
      (asg_modify_target_capacity ⟨2, 10, 5, ["i-1", "i-2"]⟩ 50 true
        true).2.unprotectCalls = [] ∧
      (asg_modify_target_capacity ⟨2, 10, 5, ["i-1", "i-2"]⟩ 50 true
        true).2.setDesiredCalls = []) ∧
    (∃ applied : ℚ,
      (asg_modify_target_capacity ⟨2, 10, 5, ["i-1", "i-2"]⟩ 50 true
        false).2.setDesiredCalls = [pyInt applied] ∧
      (2 : ℚ) ≤ applied ∧ applied ≤ 10 ∧
      ((2 : ℚ) ≤ 50 ∧ (50 : ℚ) ≤ 10 → applied = 50) ∧
      (asg_modify_target_capacity ⟨2, 10, 5, ["i-1", "i-2"]⟩ 50 true
        false).2.clampLogs =
        (if (2 : ℚ) ≤ 50 ∧ (50 : ℚ) ≤ 10 then 0 else 1)) :=
  asg_modify_target_capacity_spec ⟨2, 10, 5, ["i-1", "i-2"]⟩ 50 true
    (by norm_num)

/-- Modelled from the spec: the `protect_unowned_instances` ownership guard
of the resource-group base class (mesos_role_resource_group.py is not under
the provided sources): ids the group does not currently own are filtered out
and logged before the wrapped method runs. -/
def protectUnowned (owned ids : List String) : List String :=
  ids.filter fun i => decide (i ∈ owned)

/-- State of a `SpotFleetResourceGroup` read by `terminate_instances_by_id`:
the fleet's current target capacity, the market weight of each instance
(`market_weights[get_instance_market(instance)]`), and the ids the group
currently owns. -/
structure SfrState where
  targetCapacity : ℚ
  weights : String → ℚ
  owned : List String

/-- Effects of one `terminate_instances_by_id` call: the id batches passed to
`ec2.terminate_instances`, the ids reported terminated, and the capacities
passed to `modify_target_capacity` afterwards. -/
structure TerminateOutcome where
  terminateCalls : List (List String)
  terminated : List String
  newTargetCalls : List ℚ
  deriving DecidableEq, Repr

/-- Embeds `SpotFleetResourceGroup.terminate_instances_by_id`
(spot_fleet_resource_group.py lines 48-76) under the ownership guard: an
empty id list returns immediately; otherwise the ids are terminated through
the compute API in batches of `batch_size = 500`, the terminated ids are
collected from the responses (`aws` gives each response's
TerminatingInstances), and the fleet target is lowered by the total market
weight of the terminated instances. -/
def sfr_terminate_instances_by_id (st : SfrState)
    (aws : List String → List String) (instance_ids : List String) :
    TerminateOutcome :=
  let ids := protectUnowned st.owned instance_ids
  if ids = [] then
    { terminateCalls := [], terminated := [], newTargetCalls := [] }
  else
    let calls := chunksBy 499 ids
    let terminated := (calls.map aws).flatten
    let terminated_weight := (terminated.map st.weights).sum
    { terminateCalls := calls, terminated := terminated,
      newTargetCalls := [st.targetCapacity - terminated_weight] }

/-- C6: for a non-empty list of ids all owned by the spot fleet group, and a
compute API whose termination responses only ever name requested ids,
`terminate_instances_by_id` issues batches of at most 500 ids jointly
covering exactly the given ids, reports a terminated set that is a subset of
the given ids, and lowers the target capacity by exactly the summed market
weights of the terminated instances. -/
theorem sfr_terminate_instances_by_id_spec (st : SfrState)
    (aws : List String → List String) (instance_ids : List String)
    (hne : instance_ids ≠ [])
    (howned : ∀ i ∈ instance_ids, i ∈ st.owned)
    (haws : ∀ l, ∀ x ∈ aws l, x ∈ l) :
    (∀ c ∈ (sfr_terminate_instances_by_id st aws
      instance_ids).terminateCalls, c.length ≤ 500) ∧
    ((sfr_terminate_instances_by_id st aws
      instance_ids).terminateCalls.flatten = instance_ids) ∧
    (∀ x ∈ (sfr_terminate_instances_by_id st aws instance_ids).terminated,
      x ∈ instance_ids) ∧
    (sfr_terminate_instances_by_id st aws instance_ids).newTargetCalls =
      [st.targetCapacity -
        ((sfr_terminate_instances_by_id st aws
          instance_ids).terminated.map st.weights).sum] := by
  have hguard : protectUnowned st.owned instance_ids = instance_ids :=
    List.filter_eq_self.mpr fun i hi => by
      simpa using howned i hi
  have hnotnil : ¬(protectUnowned st.owned instance_ids = []) := by
    rw [hguard]; exact hne
  refine ⟨?_, ?_, ?_, ?_⟩
  · intro c hc
    rw [sfr_terminate_instances_by_id, hguard, if_neg (hguard ▸ hnotnil)]
      at hc
    simp only at hc
    have := chunksBy_mem_length 499 instance_ids c hc
    omega
  · rw [sfr_terminate_instances_by_id, hguard, if_neg (hguard ▸ hnotnil)]
    simp only
    exact chunksBy_join 499 instance_ids
  · intro x hx
    rw [sfr_terminate_instances_by_id, hguard, if_neg (hguard ▸ hnotnil)]
      at hx
    simp only [List.mem_flatten, List.mem_map] at hx
    obtain ⟨s, ⟨c, hc, rfl⟩, hxs⟩ := hx
    have hxc : x ∈ c := haws c x hxs
    have : x ∈ (chunksBy 499 instance_ids).flatten :=
      List.mem_flatten.mpr ⟨c, hc, hxc⟩
    rwa [chunksBy_join] at this
  · rw [sfr_terminate_instances_by_id, hguard, if_neg (hguard ▸ hnotnil)]

/-- Witness for C6: two owned instances of weight 2 terminated through a
compute API that reports every requested id terminated. -/
theorem sfr_terminate_instances_by_id_spec_witness :
    (∀ c ∈ (sfr_terminate_instances_by_id ⟨10, fun _ => 2, ["i-1", "i-2"]⟩
      id ["i-1", "i-2"]).terminateCalls, c.length ≤ 500) ∧
    ((sfr_terminate_instances_by_id ⟨10, fun _ => 2, ["i-1", "i-2"]⟩
      id ["i-1", "i-2"]).terminateCalls.flatten = ["i-1", "i-2"]) ∧
    (∀ x ∈ (sfr_terminate_instances_by_id ⟨10, fun _ => 2, ["i-1", "i-2"]⟩
      id ["i-1", "i-2"]).terminated, x ∈ ["i-1", "i-2"]) ∧
    (sfr_terminate_instances_by_id ⟨10, fun _ => 2, ["i-1", "i-2"]⟩
      id ["i-1", "i-2"]).newTargetCalls =
      [(10 : ℚ) -
        ((sfr_terminate_instances_by_id ⟨10, fun _ => 2, ["i-1", "i-2"]⟩
          id ["i-1", "i-2"]).terminated.map (fun _ => (2 : ℚ))).sum] :=
  sfr_terminate_instances_by_id_spec ⟨10, fun _ => 2, ["i-1", "i-2"]⟩
    id ["i-1", "i-2"] (by simp) (fun i hi => hi) (fun l x hx => hx)

/-- Embeds the liveness check of `load_signal_connection` (util.py lines
207-210): after the 2-second sleep, `signal_process.poll()` returns `None`
while the child is still running, or the child's exit code; the source then
runs `if return_code: raise SignalConnectionError(...)`, so only a truthy
(nonzero) exit code raises. -/
def load_signal_connection_check (pollResult : Option ℤ) :
    Except PyErr Unit :=
  match pollResult with
  | none => .ok ()
  | some rc => if rc ≠ 0 then .error .signalConnection else .ok ()

/-- C7: evaluating the post-sleep exit check at the claim's failing input.
A child that exited with code 0 during the sleep makes `poll()` return 0,
which `if return_code:` treats as falsy, so no SignalConnectionError is
raised and the code proceeds to `accept` - contradicting the claim (and the
adjacent source comment "check to see if it's running") that any exit fails
with SignalConnectionError; a nonzero exit code does raise. -/
theorem load_signal_connection_check_exit_zero :
    load_signal_connection_check (some 0) = .ok () ∧
    load_signal_connection_check none = .ok () ∧
    load_signal_connection_check (some 1) = .error .signalConnection :=
  ⟨rfl, rfl, by norm_num [load_signal_connection_check]⟩

/-- An EC2 market: an (instance type, availability zone) pair, as in
aws/markets.py. -/
structure Market where
  instance_type : String
  az : String
  deriving DecidableEq, Repr

/-- State of an `AutoScalingResourceGroup` as read by its properties
(auto_scaling_resource_group.py): the launch configuration's InstanceType,
the group's AvailabilityZones, the AZ of each member instance, and the
EC2_INSTANCE_TYPES cpu-count table. -/
structure AsgGroupView where
  launchInstanceType : String
  availabilityZones : List String
  instanceAzs : List String
  cpusTable : String → ℚ

/-- Embeds `AutoScalingResourceGroup.market_weight` (lines 87-101): the
instance type's cpu count when the market's AZ is served by the group and
the type matches the launch configuration, otherwise 0. -/
def asg_market_weight (g : AsgGroupView) (m : Market) : ℚ :=
  if m.az ∈ g.availabilityZones ∧ m.instance_type = g.launchInstanceType
  then g.cpusTable m.instance_type else 0

/-- Embeds `AutoScalingResourceGroup.fulfilled_capacity` (lines 247-249):
`len(self._group_config['Instances'])`, the plain member count. -/
def asg_fulfilled_capacity (g : AsgGroupView) : ℚ := g.instanceAzs.length

/-- The quantity the claim asserts `fulfilled_capacity` equals: the sum
over the group's instances of the market weight of each instance's market
(equivalently, the sum over markets of weight times instances-in-market,
since every instance's market is (launch type, its AZ)). -/
def asg_weighted_market_sum (g : AsgGroupView) : ℚ :=
  (g.instanceAzs.map fun az =>
    asg_market_weight g { instance_type := g.launchInstanceType, az := az }).sum

/-- A concrete ASG backend state: one m4.large instance (2 cpus in
EC2_INSTANCE_TYPES) in a listed availability zone. -/
def asgTwoCpuGroup : AsgGroupView :=
  { launchInstanceType := "m4.large"
    availabilityZones := ["us-west-2a"]
    instanceAzs := ["us-west-2a"]
    cpusTable := fun _ => 2 }

/-- C8 counterexample: for the ASG backend the claimed invariant fails:
with a single 2-cpu instance, fulfilled_capacity is the instance count 1
while the sum of market_weight times instances-per-market is 2. -/
theorem asg_fulfilled_capacity_ne_weighted_sum :
    asg_fulfilled_capacity asgTwoCpuGroup ≠
      asg_weighted_market_sum asgTwoCpuGroup := by
  simp [asg_fulfilled_capacity, asg_weighted_market_sum, asg_market_weight,
    asgTwoCpuGroup]

/-- State of a `SimulatedSpotFleetResourceGroup` as read by its capacity
properties (simulated_spot_fleet_resource_group.py): the per-market weight
from the launch specifications, and the instance count per market. -/
structure SimSfrView where
  weight : Market → ℚ
  instancesByMarket : List (Market × ℕ)

/-- Embeds `SimulatedSpotFleetResourceGroup.market_capacities` (lines
207-213): `len(instance_ids) * market_weight(market)` for every market of
`_instance_ids_by_market` with a non-empty availability zone. -/
def ssfr_market_capacities (g : SimSfrView) : List (Market × ℚ) :=
  (g.instancesByMarket.filter fun p => !(p.1.az = "")).map
    fun p => (p.1, (p.2 : ℚ) * g.weight p.1)

/-- Embeds `SimulatedSpotFleetResourceGroup.fulfilled_capacity` (lines
219-226): the sum of the market capacities. -/
def ssfr_fulfilled_capacity (g : SimSfrView) : ℚ :=
  ((ssfr_market_capacities g).map Prod.snd).sum

/-- C8 amended: the invariant holds for the simulated spot-fleet group,
whose fulfilled_capacity is exactly the sum over its markets with a
non-empty availability zone of market_weight(m) times the number of the
group's instances in m.  (The ASG backend's fulfilled_capacity is its plain
instance count - see the counterexample - and the real spot-fleet backend
reports the provider's FulfilledCapacity field rather than computing the
sum.) -/
theorem ssfr_fulfilled_capacity_eq_weighted_sum (g : SimSfrView) :
    ssfr_fulfilled_capacity g =
      ((g.instancesByMarket.filter fun p => !(p.1.az = "")).map
        (fun p => g.weight p.1 * (p.2 : ℚ))).sum := by
  rw [ssfr_fulfilled_capacity, ssfr_market_capacities, List.map_map]
  congr 1
  refine List.map_congr_left fun p _ => ?_
  simp [mul_comm]

/-- Key access in a Python dict modelled as an association list: `d[k]`
raises KeyError when the key is missing. -/
def pyLookup {α : Type} (l : List (String × α)) (k : String) :
    Except PyErr α :=
  match l.find? fun p => decide (p.1 = k) with
  | none => .error .keyError
  | some p => .ok p.2

/-- Embeds the body of the per-ASG loop of `AutoScalingResourceGroup.load`
(auto_scaling_resource_group.py lines 285-292), with the configured tag's
JSON value modelled as an already-parsed field map: look up the configured
tag key (KeyError skips), look up 'pool' (KeyError skips), compare with the
requested pool, and only if equal look up 'paasta_cluster' (KeyError skips)
and compare with the requested cluster. -/
def processAsg (cluster pool tagKey : String)
    (tags : List (String × List (String × String))) : Except PyErr Bool :=
  match pyLookup tags tagKey with
  | .error e => .error e
  | .ok fields =>
    match pyLookup fields "pool" with
    | .error e => .error e
    | .ok p =>
      if p = pool then
        match pyLookup fields "paasta_cluster" with
        | .error e => .error e
        | .ok c => .ok (decide (c = cluster))
      else .ok false

/-- Embeds the `try ... except KeyError: continue` around the loop body:
an entry whose processing raises KeyError yields nothing. -/
def loadEntry (cluster pool tagKey : String)
    (e : String × List (String × List (String × String))) : Option String :=
  match processAsg cluster pool tagKey e.2 with
  | .ok true => some e.1
  | _ => none

/-- Embeds `AutoScalingResourceGroup.load` over the tag dictionaries
returned by `_get_asg_tags`: the ids of the ASGs whose configured tag
matches the requested pool and cluster. -/
def asg_load (cluster pool tagKey : String)
    (asgs : List (String × List (String × List (String × String)))) :
    List String :=
  asgs.filterMap (loadEntry cluster pool tagKey)

theorem loadEntry_eq_some_iff (cluster pool tagKey : String)
    (e : String × List (String × List (String × String))) (i : String) :
    loadEntry cluster pool tagKey e = some i ↔
      processAsg cluster pool tagKey e.2 = .ok true ∧ e.1 = i := by
  rcases h : processAsg cluster pool tagKey e.2 with e2 | b
  · simp [loadEntry, h]
  · cases b <;> simp [loadEntry, h]

theorem processAsg_ok_true_iff (cluster pool tagKey : String)
    (tags : List (String × List (String × String))) :
    processAsg cluster pool tagKey tags = .ok true ↔
      ∃ fields, pyLookup tags tagKey = .ok fields ∧
        pyLookup fields "pool" = .ok pool ∧
        pyLookup fields "paasta_cluster" = .ok cluster := by
  constructor
  · intro h
    rcases h1 : pyLookup tags tagKey with e1 | fields
    · simp [processAsg, h1] at h
    · rcases h2 : pyLookup fields "pool" with e2 | p
      · simp [processAsg, h1, h2] at h
      · by_cases hp : p = pool
        · subst hp
          rcases h3 : pyLookup fields "paasta_cluster" with e3 | c
          · simp [processAsg, h1, h2, h3] at h
          · have hc : c = cluster := by
              simpa [processAsg, h1, h2, h3] using h
            subst hc
            exact ⟨fields, rfl, h2, h3⟩
        · simp [processAsg, h1, h2, hp] at h
  · rintro ⟨fields, h1, h2, h3⟩
    simp [processAsg, h1, h2, h3]

/-- C9: `AutoScalingResourceGroup.load` returns exactly those ASG ids whose
tag dictionary has the configured key with a parsed value whose 'pool' field
equals the requested pool and whose 'paasta_cluster' field equals the
requested cluster; and an entry whose processing raises KeyError (missing
tag key or missing field) is skipped rather than surfacing an error. -/
theorem asg_load_spec (cluster pool tagKey asg_id : String)
    (asgs : List (String × List (String × List (String × String)))) :
    (asg_id ∈ asg_load cluster pool tagKey asgs ↔
      ∃ tags, (asg_id, tags) ∈ asgs ∧
        ∃ fields, pyLookup tags tagKey = .ok fields ∧
          pyLookup fields "pool" = .ok pool ∧
          pyLookup fields "paasta_cluster" = .ok cluster) ∧
    (∀ entry : String × List (String × List (String × String)), ∀ e,
      processAsg cluster pool tagKey entry.2 = .error e →
      loadEntry cluster pool tagKey entry = none) := by
  constructor
  · rw [asg_load, List.mem_filterMap]
    constructor
    · rintro ⟨⟨i, tags⟩, hmem, hf⟩
      rw [loadEntry_eq_some_iff] at hf
      obtain ⟨hp, hi⟩ := hf
      rw [processAsg_ok_true_iff] at hp
      subst hi
      exact ⟨tags, hmem, hp⟩
    · rintro ⟨tags, hmem, hfields⟩
      refine ⟨(asg_id, tags), hmem, ?_⟩
      rw [loadEntry_eq_some_iff, processAsg_ok_true_iff]
      exact ⟨hfields, rfl⟩
  · intro entry e he
    rw [loadEntry, he]

/-- Witness for C9: one matching ASG and one ASG missing the configured tag
key; only the former is loaded, and the latter's KeyError is swallowed. -/
theorem asg_load_spec_witness :
    ("asg-good" ∈ asg_load "cluster-1" "pool-1" "puppet:role::paasta"
      [("asg-good", [("puppet:role::paasta",
        [("pool", "pool-1"), ("paasta_cluster", "cluster-1")])]),
       ("asg-untagged", [("other", [])])] ↔
      ∃ tags, ("asg-good", tags) ∈
        [("asg-good", [("puppet:role::paasta",
          [("pool", "pool-1"), ("paasta_cluster", "cluster-1")])]),
         ("asg-untagged", [("other", [])])] ∧
        ∃ fields, pyLookup tags "puppet:role::paasta" = .ok fields ∧
          pyLookup fields "pool" = .ok "pool-1" ∧
          pyLookup fields "paasta_cluster" = .ok "cluster-1") ∧
    (∀ entry : String × List (String × List (String × String)), ∀ e,
      processAsg "cluster-1" "pool-1" "puppet:role::paasta" entry.2 =
        .error e →
      loadEntry "cluster-1" "pool-1" "puppet:role::paasta" entry = none) :=
  asg_load_spec "cluster-1" "pool-1" "puppet:role::paasta" "asg-good"
    [("asg-good", [("puppet:role::paasta",
      [("pool", "pool-1"), ("paasta_cluster", "cluster-1")])]),
     ("asg-untagged", [("other", [])])]

end Clusterman
